import Mathlib

/-!
# Halftone Studio — verification of the local process bridge

Shallow embedding of the Electron main-process bridge
(`src/electron/main.js` and its extended variant `src/unnamed/part_001`):
the request dispatcher (`sendToBridge` / `processQueue` / the stdout and
exit handlers of `startBridge`), the line framer of the stdout handler,
the dependency provisioner (`ensureDependencies` / `runPip`), and pass 1
of the runtime locator (`findPythonAndPip`).

Requests are identified by a `Nat` id (submission index).  JavaScript
strings become Lean `String`s; the framer works on `List Char` so that
arbitrary chunk boundaries can be expressed.  Effects (promise
resolution/rejection, writes to the worker's stdin) are reified as an
output list emitted by each transition.
-/

namespace Halftone

/-- A parsed wire message, as the stdout handler inspects it:
`msg.status === "ready"`, `msg.ok === false`, `msg.error`.
`none` models an absent field or one of a non-matching JS type
(strict `===` comparison fails on those). -/
structure Msg where
  status : Option String
  ok : Option Bool
  error : Option String
  deriving Repr, DecidableEq

/-- Reject reason `new Error(msg.error || "Bridge error")`: JS `||` falls through on
`undefined` and on the empty string. -/
def Msg.errText (m : Msg) : String :=
  match m.error with
  | some e => if e = "" then "Bridge error" else e
  | none => "Bridge error"

/-- The module-level mutable bridge state of `main.js`:
`bridgeProcess` (modelled as the boolean `bridgeAlive`:
`bridgeProcess !== null && bridgeProcess.stdin.writable`), `bridgeReady`,
`pendingRequests` (prelaunch buffer), `requestQueue` (dispatch queue),
`currentRequest` (the in-flight slot). -/
structure BridgeState where
  bridgeAlive : Bool
  bridgeReady : Bool
  pendingRequests : List Nat
  requestQueue : List Nat
  currentRequest : Option Nat
  deriving Repr, DecidableEq

/-- State right after `startBridge` spawned the worker: alive, not yet
ready, all queues empty, nothing in flight. -/
def initState : BridgeState :=
  { bridgeAlive := true, bridgeReady := false, pendingRequests := [],
    requestQueue := [], currentRequest := none }

/-- Observable effects of the dispatcher: a command line written to the
worker's stdin, or the settlement of a request's promise. -/
inductive Out where
  | write (r : Nat)
  | resolve (r : Nat) (m : Msg)
  | reject (r : Nat) (err : String)
  deriving Repr, DecidableEq

/-- Events driving the dispatcher: a `sendToBridge` call, a complete
non-blank stdout line that parsed as JSON, a complete non-blank line on
which `JSON.parse` threw, and the worker process `exit` event. -/
inductive Event where
  | send (r : Nat)
  | msgLine (m : Msg)
  | badLine (err : String)
  | exit
  deriving Repr, DecidableEq

/-- The `processQueue()` function: if a request is in flight or the queue is empty do
nothing; otherwise shift the head.  If the bridge process is gone or its
stdin is not writable, reject the shifted request with "Bridge not
running" and recurse; otherwise write the request and mark it in
flight. -/
def processQueue (s : BridgeState) : BridgeState × List Out :=
  match s.currentRequest with
  | some _ => (s, [])
  | none =>
    match h : s.requestQueue with
    | [] => (s, [])
    | r :: rest =>
      if s.bridgeAlive then
        ({ s with requestQueue := rest, currentRequest := some r },
          [Out.write r])
      else
        let p := processQueue { s with requestQueue := rest }
        (p.1, Out.reject r "Bridge not running" :: p.2)
termination_by s.requestQueue.length
decreasing_by simp [h]

/-- One dispatcher transition.
* `send r`: if not ready, push onto the prelaunch buffer and return (the
  promise stays pending); otherwise push onto the dispatch queue and run
  `processQueue`.
* `msgLine m` with `m.status === "ready"`: set ready, flush the prelaunch
  buffer onto the dispatch queue in order, run `processQueue`.
* other `msgLine m`: if a request is in flight, clear the slot, reject it
  with the error text when `m.ok === false` and resolve it with the full
  message otherwise, then run `processQueue`; with nothing in flight the
  line is dropped.
* `badLine err` (JSON.parse threw): reject only the in-flight request (if
  any), clear the slot, run `processQueue`.
* `exit`: null the process handle, clear ready, reject the in-flight
  request and every queued request with "Bridge exited", empty the
  dispatch queue (the prelaunch buffer is untouched). -/
def step (s : BridgeState) (e : Event) : BridgeState × List Out :=
  match e with
  | .send r =>
    if s.bridgeReady then
      processQueue { s with requestQueue := s.requestQueue ++ [r] }
    else
      ({ s with pendingRequests := s.pendingRequests ++ [r] }, [])
  | .msgLine m =>
    if m.status = some "ready" then
      processQueue { s with bridgeReady := true,
                            requestQueue := s.requestQueue ++ s.pendingRequests,
                            pendingRequests := [] }
    else
      match s.currentRequest with
      | none => (s, [])
      | some r =>
        let p := processQueue { s with currentRequest := none }
        if m.ok = some false then
          (p.1, Out.reject r m.errText :: p.2)
        else
          (p.1, Out.resolve r m :: p.2)
  | .badLine err =>
    match s.currentRequest with
    | none => (s, [])
    | some r =>
      let p := processQueue { s with currentRequest := none }
      (p.1, Out.reject r err :: p.2)
  | .exit =>
    (({ s with bridgeAlive := false, bridgeReady := false,
               currentRequest := none, requestQueue := [] }),
      (s.currentRequest.toList ++ s.requestQueue).map
        (fun r => Out.reject r "Bridge exited"))

/-- Run a sequence of events, accumulating all outputs in order. -/
def run (s : BridgeState) : List Event → BridgeState × List Out
  | [] => (s, [])
  | e :: es =>
    let p := step s e
    let q := run p.1 es
    (q.1, p.2 ++ q.2)

/-- Ids written to the worker's stdin, in order. -/
def writesOf : List Out → List Nat
  | [] => []
  | Out.write r :: rest => r :: writesOf rest
  | _ :: rest => writesOf rest

/-- Ids submitted through `sendToBridge`, in order. -/
def sendsOf : List Event → List Nat
  | [] => []
  | Event.send r :: rest => r :: sendsOf rest
  | _ :: rest => sendsOf rest

/-- Replays an output list against an in-flight slot: a `write` while a
request is in flight is the violation (`none`); a settlement of the
in-flight request empties the slot.  Returns the slot after the list when
no violation occurred. -/
def flightAfter (c : Option Nat) : List Out → Option (Option Nat)
  | [] => some c
  | Out.write r :: rest =>
    match c with
    | some _ => none
    | none => flightAfter (some r) rest
  | Out.resolve r _ :: rest =>
    if c = some r then flightAfter none rest else flightAfter c rest
  | Out.reject r _ :: rest =>
    if c = some r then flightAfter none rest else flightAfter c rest

/-! ## Framer: the stdout "data" handler's buffering
`buffer += chunk; lines = buffer.split("\n"); buffer = lines.pop()`.
Streams are `List Char` so that chunks may split anywhere, including
inside a JSON string value. -/

/-- Splitting `s.split("\n")` followed by `pop()`: the complete lines before the
last newline, and the trailing (possibly empty) fragment kept as the new
buffer. -/
def splitComplete : List Char → List (List Char) × List Char
  | [] => ([], [])
  | c :: rest =>
    if c = '\n' then
      let p := splitComplete rest
      ([] :: p.1, p.2)
    else
      let p := splitComplete rest
      match p.1 with
      | [] => ([], c :: p.2)
      | l :: ls => ((c :: l) :: ls, p.2)

/-- One `data` event: append the chunk to the buffer, emit the complete
lines, keep the trailing fragment.  Returns (new buffer, complete lines
in order). -/
def feed (buf chunk : List Char) : List Char × List (List Char) :=
  let p := splitComplete (buf ++ chunk)
  (p.2, p.1)

/-- A sequence of `data` events, concatenating the emitted lines. -/
def feedAll (buf : List Char) : List (List Char) → List Char × List (List Char)
  | [] => (buf, [])
  | c :: cs =>
    let p := feed buf c
    let q := feedAll p.1 cs
    (q.1, p.2 ++ q.2)

/-- Code points JavaScript's `String.prototype.trim` strips (the ones the
wire protocol can produce): TAB, LF, VT, FF, CR, space, NBSP, BOM. -/
def jsWhitespace (c : Char) : Bool :=
  c.toNat ∈ [9, 10, 11, 12, 13, 32, 0xA0, 0xFEFF]

/-- The guard `if (!line.trim()) continue;` — a line survives iff it has a
non-whitespace character. -/
def keptLine (l : List Char) : Bool :=
  l.any (fun c => !jsWhitespace c)

/-- The messages a `data`-event line stream hands to the dispatcher:
blank lines skipped, every kept line put through the (abstract) JSON
parse `p`. -/
def framedMsgs (p : List Char → α) (lines : List (List Char)) : List α :=
  (lines.filter keptLine).map p

/-! ## Dependency provisioner: `ensureDependencies` / `runPip` -/

/-- JS `haystack.includes(needle)` (substring containment). -/
def strContains (haystack needle : String) : Bool :=
  haystack.toList.tails.any (fun t => needle.toList.isPrefixOf t)

/-- The `REQUIRED_PACKAGES` table: import name paired with pip name. -/
def REQUIRED_PACKAGES : List (String × String) :=
  [("cv2", "opencv-python-headless"),
   ("numpy", "numpy"),
   ("skimage", "scikit-image"),
   ("PIL", "Pillow"),
   ("cairosvg", "cairosvg"),
   ("shapely", "shapely")]

/-- Fallback output substituted when the probe script itself fails:
`REQUIRED_PACKAGES.map(p => "miss:"+p.importName).join("\n")`. -/
def allMissOutput : String :=
  String.intercalate "\n" (REQUIRED_PACKAGES.map (fun p => "miss:" ++ p.1))

/-- Packages whose `miss:<importName>` tag occurs in the probe output. -/
def missingFrom (checkOutput : String) : List (String × String) :=
  REQUIRED_PACKAGES.filter (fun p => strContains checkOutput ("miss:" ++ p.1))

/-- Outcome of one `runPip` promise: `{success, error}` (`error` is the
accumulated stderr, or the spawn error message). -/
structure InstallResult where
  success : Bool
  error : String
  deriving Repr, DecidableEq

/-- The three pip invocations `ensureDependencies` can make, named by the
extra flag passed to `buildPipInstallArgs`. -/
inductive Attempt where
  | plain
  | breakSystemPackages
  | user
  deriving Repr, DecidableEq

/-- The environment the provisioner runs against: the probe script's
stdout (`none` when `execSync` threw) and the outcome each pip attempt
would have. -/
structure PipEnv where
  checkOutput : Option String
  plainResult : InstallResult
  breakResult : InstallResult
  userResult : InstallResult

/-- The install phase of `ensureDependencies`, given a located pip: which
pip attempts run, in order, and whether provisioning succeeds.
Faithful to the control flow after the probe:
if nothing is missing, return ok with no attempt; else try plain; on a
failure whose stderr contains "externally-managed", retry with
`--break-system-packages`; if (still) failing, retry with `--user`. -/
def installAttempts (env : PipEnv) : List Attempt × Bool :=
  let checkOutput := match env.checkOutput with
    | some o => o
    | none => allMissOutput
  if (missingFrom checkOutput).isEmpty then
    ([], true)
  else
    let r1 := env.plainResult
    if r1.success then
      ([Attempt.plain], true)
    else if strContains r1.error "externally-managed" then
      let r2 := env.breakResult
      if r2.success then
        ([Attempt.plain, Attempt.breakSystemPackages], true)
      else
        ([Attempt.plain, Attempt.breakSystemPackages, Attempt.user],
          env.userResult.success)
    else
      ([Attempt.plain, Attempt.user], env.userResult.success)

/-! ## Runtime locator: pass 1 of `findPythonAndPip` -/

/-- Host behaviour for the locator's probes: `versionOut c` is the
trimmed stdout of `execSync(`"c" --version`)`, `none` when it throws;
`pipOk c` is whether `execSync(`"c" -m pip --version`)` succeeds. -/
structure PyEnv where
  versionOut : String → Option String
  pipOk : String → Bool

/-- The OS-specific ordered candidate lists of `findPythonAndPip`. -/
def pythonCandidatesWin : List String := ["python", "python3", "py"]

def pythonCandidatesMac : List String :=
  ["/opt/homebrew/bin/python3", "/usr/local/bin/python3", "python3", "python"]

def pythonCandidatesLinux : List String :=
  ["python3", "python", "/usr/bin/python3"]

/-- Pass 1 of `findPythonAndPip`: walk the candidate list; skip a
candidate whose version probe throws, whose version string does not
contain `"3."`, or whose pip probe fails; return the first survivor. -/
def pass1 (env : PyEnv) : List String → Option String
  | [] => none
  | cmd :: rest =>
    match env.versionOut cmd with
    | none => pass1 env rest
    | some ver =>
      if strContains ver "3." then
        if env.pipOk cmd then some cmd else pass1 env rest
      else pass1 env rest

/-- The candidate test pass 1 applies, as a single predicate: version
probe succeeds, its output contains `"3."`, pip probe succeeds. -/
def candidateOk (env : PyEnv) (cmd : String) : Bool :=
  match env.versionOut cmd with
  | none => false
  | some ver => strContains ver "3." && env.pipOk cmd

/-- Modelled from the spec: "verify it reports a compatible major
version" — the runtime's reported major version is 3.  Used only to
compare the spec's words with the code's `ver.includes("3.")` test. -/
def reportsMajor3 (ver : String) : Bool :=
  "Python 3".toList.isPrefixOf ver.toList

/-! ## Helper lemmas about the dispatcher -/

/-- Dead-bridge branch of `processQueue`: with nothing in flight and the
process gone, every queued request is rejected with "Bridge not
running" and the queue empties. -/
theorem processQueue_dead (ready : Bool) (pending : List Nat) (q : List Nat) :
    processQueue { bridgeAlive := false, bridgeReady := ready,
                   pendingRequests := pending, requestQueue := q,
                   currentRequest := none } =
      ({ bridgeAlive := false, bridgeReady := ready,
         pendingRequests := pending, requestQueue := [],
         currentRequest := none },
        q.map fun x => Out.reject x "Bridge not running") := by
  induction q with
  | nil => rw [processQueue]; simp
  | cons r rest ih => rw [processQueue]; simp [ih]

/-- Closed form of `processQueue`: when a request is in flight or the
queue is empty nothing happens; when the bridge is alive the head is
dispatched; when it is dead every queued request is rejected with
"Bridge not running". -/
theorem processQueue_eq (s : BridgeState) :
    processQueue s =
      match s.currentRequest with
      | some _ => (s, [])
      | none =>
        match s.requestQueue with
        | [] => (s, [])
        | r :: rest =>
          if s.bridgeAlive then
            ({ s with requestQueue := rest, currentRequest := some r },
              [Out.write r])
          else
            ({ s with requestQueue := [], currentRequest := none },
              (r :: rest).map fun x => Out.reject x "Bridge not running") := by
  obtain ⟨alive, ready, pending, q, cur⟩ := s
  cases cur with
  | some r => rw [processQueue]
  | none =>
    cases q with
    | nil => rw [processQueue]
    | cons r rest =>
      cases alive with
      | true => rw [processQueue]; simp
      | false =>
        rw [processQueue]
        simp [processQueue_dead]

/-- The function `processQueue` touches neither the prelaunch buffer, the alive flag
nor the ready flag. -/
theorem processQueue_frame (s : BridgeState) :
    (processQueue s).1.pendingRequests = s.pendingRequests ∧
    (processQueue s).1.bridgeAlive = s.bridgeAlive ∧
    (processQueue s).1.bridgeReady = s.bridgeReady := by
  obtain ⟨alive, ready, pending, q, cur⟩ := s
  rw [processQueue_eq]
  cases cur <;> cases q <;> simp <;> split <;> simp

/-- While the bridge is alive, `processQueue` moves requests from the
front of the queue to the write stream without loss or reorder. -/
theorem processQueue_writes (s : BridgeState) (h : s.bridgeAlive = true) :
    writesOf (processQueue s).2 ++ (processQueue s).1.requestQueue =
      s.requestQueue := by
  obtain ⟨alive, ready, pending, q, cur⟩ := s
  subst h
  rw [processQueue_eq]
  cases cur <;> cases q <;> simp [writesOf]

/-- Replaying concatenated output lists composes. -/
theorem flightAfter_append (c : Option Nat) (o₁ o₂ : List Out) :
    flightAfter c (o₁ ++ o₂) =
      (flightAfter c o₁).bind (fun c' => flightAfter c' o₂) := by
  induction o₁ generalizing c with
  | nil => simp [flightAfter]
  | cons o rest ih =>
    cases o with
    | write r =>
      cases c <;> simp [flightAfter, ih]
    | resolve r m =>
      by_cases hc : c = some r <;> simp [flightAfter, hc, ih]
    | reject r e =>
      by_cases hc : c = some r <;> simp [flightAfter, hc, ih]

/-- A list of rejections replayed from an empty slot leaves it empty. -/
theorem flightAfter_rejects (l : List Nat) (e : String) :
    flightAfter none (l.map fun r => Out.reject r e) = some none := by
  induction l with
  | nil => simp [flightAfter]
  | cons r rest ih => simp [flightAfter, ih]

/-- The function `processQueue` never writes while a request is in flight: replaying
its outputs from the pre-state's slot succeeds and ends at the
post-state's slot. -/
theorem processQueue_flight (s : BridgeState) :
    flightAfter s.currentRequest (processQueue s).2 =
      some (processQueue s).1.currentRequest := by
  obtain ⟨alive, ready, pending, q, cur⟩ := s
  rw [processQueue_eq]
  cases cur with
  | some r => simp [flightAfter]
  | none =>
    cases q with
    | nil => simp [flightAfter]
    | cons r rest =>
      cases alive with
      | true => simp [flightAfter]
      | false => simp [flightAfter, flightAfter_rejects]

/-- One dispatcher transition never writes while a request is in flight:
replaying its outputs from the pre-state's slot succeeds and ends at the
post-state's slot. -/
theorem step_flight (s : BridgeState) (e : Event) :
    flightAfter s.currentRequest (step s e).2 =
      some (step s e).1.currentRequest := by
  cases e with
  | send r =>
    by_cases hr : s.bridgeReady = true
    · have h := processQueue_flight { s with requestQueue := s.requestQueue ++ [r] }
      simpa [step, hr] using h
    · simp [step, hr, flightAfter]
  | msgLine m =>
    by_cases hready : m.status = some "ready"
    · have h := processQueue_flight
        { s with bridgeReady := true,
                 requestQueue := s.requestQueue ++ s.pendingRequests,
                 pendingRequests := [] }
      simpa [step, hready] using h
    · cases hc : s.currentRequest with
      | none => simp [step, hready, hc, flightAfter]
      | some r =>
        have h := processQueue_flight { s with currentRequest := none }
        by_cases hok : m.ok = some false <;>
          simp [step, hready, hc, hok, flightAfter, h]
  | badLine err =>
    cases hc : s.currentRequest with
    | none => simp [step, hc, flightAfter]
    | some r =>
      have h := processQueue_flight { s with currentRequest := none }
      simp [step, hc, flightAfter, h]
  | exit =>
    cases hc : s.currentRequest with
    | none => simp [step, hc, flightAfter, flightAfter_rejects]
    | some r => simp [step, hc, flightAfter, flightAfter_rejects]

/-- C1 — At-most-one-in-flight.  Along any event trace the dispatcher's
output stream replays without violation: every `write` happens with the
in-flight slot empty — it is filled by exactly that write and emptied
only when the written request's response, its parse failure, or the
worker's exit is processed.  `flightAfter` returning `some` (never
`none`) states that no second command is ever written to the worker's
stdin before the previously written command has been settled, and the
final tracked slot agrees with `currentRequest`, which holds at most one
request by construction. -/
theorem at_most_one_in_flight (s : BridgeState) (es : List Event) :
    flightAfter s.currentRequest (run s es).2 =
      some (run s es).1.currentRequest := by
  induction es generalizing s with
  | nil => simp [run, flightAfter]
  | cons e rest ih =>
    simp only [run, flightAfter_append, step_flight, Option.bind]
    exact ih (step s e).1

/-- The projection `writesOf` distributes over append. -/
theorem writesOf_append (o₁ o₂ : List Out) :
    writesOf (o₁ ++ o₂) = writesOf o₁ ++ writesOf o₂ := by
  induction o₁ with
  | nil => simp [writesOf]
  | cons o rest ih => cases o <;> simp [writesOf, ih]

/-- The liveness/flush invariant of a running bridge: the process is
alive and, once ready has been signalled, the prelaunch buffer stays
flushed. -/
def LiveInv (s : BridgeState) : Prop :=
  s.bridgeAlive = true ∧ (s.bridgeReady = true → s.pendingRequests = [])

/-- The function `processQueue` preserves the liveness/flush invariant. -/
theorem processQueue_liveInv (t : BridgeState) (h : LiveInv t) :
    LiveInv (processQueue t).1 := by
  obtain ⟨ha, hf⟩ := h
  have frame := processQueue_frame t
  refine ⟨frame.2.1.trans ha, fun hr => ?_⟩
  rw [frame.1]
  exact hf (frame.2.2 ▸ hr)

/-- While the bridge is alive, `processQueue` conserves the backlog:
writes, then the remaining queue, then the prelaunch buffer. -/
theorem processQueue_fifo (t : BridgeState) (ha : t.bridgeAlive = true) :
    writesOf (processQueue t).2 ++ (processQueue t).1.requestQueue ++
        (processQueue t).1.pendingRequests =
      t.requestQueue ++ t.pendingRequests := by
  rw [(processQueue_frame t).1, processQueue_writes t ha]

/-- One non-exit transition of a live bridge preserves the invariant and
conserves submission order: the requests written during the step, then
the dispatch queue, then the prelaunch buffer list exactly the pre-state
backlog followed by the ids submitted in the step. -/
theorem step_fifo (s : BridgeState) (e : Event) (hinv : LiveInv s)
    (hne : e ≠ Event.exit) :
    LiveInv (step s e).1 ∧
      writesOf (step s e).2 ++ (step s e).1.requestQueue ++
          (step s e).1.pendingRequests =
        s.requestQueue ++ s.pendingRequests ++ sendsOf [e] := by
  obtain ⟨alive, ready, pending, queue, cur⟩ := s
  obtain ⟨halive, hflush⟩ := hinv
  simp only at halive hflush
  subst halive
  cases e with
  | send r =>
    cases ready with
    | true =>
      have hp : pending = [] := hflush rfl
      subst hp
      have ht : LiveInv (BridgeState.mk true true [] (queue ++ [r]) cur) :=
        ⟨rfl, fun _ => rfl⟩
      have hq := processQueue_fifo (BridgeState.mk true true [] (queue ++ [r]) cur)
        rfl
      refine ⟨processQueue_liveInv _ ht, ?_⟩
      simp only [step, if_true]
      rw [hq]
      simp [sendsOf]
    | false =>
      refine ⟨⟨rfl, fun hready => ?_⟩, ?_⟩
      · simp [step] at hready
      · simp [step, sendsOf, writesOf]
  | msgLine m =>
    by_cases hready : m.status = some "ready"
    · have ht : LiveInv (BridgeState.mk true true [] (queue ++ pending) cur) :=
        ⟨rfl, fun _ => rfl⟩
      have hq := processQueue_fifo (BridgeState.mk true true [] (queue ++ pending) cur)
        rfl
      refine ⟨?_, ?_⟩
      · simpa [step, hready] using processQueue_liveInv _ ht
      · simp only [step]
        rw [if_pos hready, hq]
        simp [sendsOf]
    · cases cur with
      | none =>
        refine ⟨⟨?_, fun h => ?_⟩, ?_⟩
        · simp [step, hready]
        · simp only [step, if_neg hready] at h ⊢
          exact hflush h
        · simp [step, hready, sendsOf, writesOf]
      | some r =>
        have ht : LiveInv (BridgeState.mk true ready pending queue none) :=
          ⟨rfl, hflush⟩
        have hq := processQueue_fifo (BridgeState.mk true ready pending queue none)
          rfl
        have hpost := processQueue_liveInv _ ht
        by_cases hok : m.ok = some false
        · refine ⟨?_, ?_⟩
          · simpa [step, hready, hok] using hpost
          · simp only [step, if_neg hready, if_pos hok, writesOf]
            rw [hq]
            simp [sendsOf]
        · refine ⟨?_, ?_⟩
          · simpa [step, hready, hok] using hpost
          · simp only [step, if_neg hready, if_neg hok, writesOf]
            rw [hq]
            simp [sendsOf]
  | badLine err =>
    cases cur with
    | none =>
      refine ⟨⟨rfl, fun h => hflush h⟩, ?_⟩
      simp [step, sendsOf, writesOf]
    | some r =>
      have ht : LiveInv (BridgeState.mk true ready pending queue none) :=
        ⟨rfl, hflush⟩
      have hq := processQueue_fifo (BridgeState.mk true ready pending queue none)
        rfl
      refine ⟨?_, ?_⟩
      · simpa [step] using processQueue_liveInv _ ht
      · simp only [step, writesOf]
        rw [hq]
        simp [sendsOf]
  | exit => exact absurd rfl hne

/-- The projection `sendsOf` splits off the head event. -/
theorem sendsOf_cons (e : Event) (rest : List Event) :
    sendsOf (e :: rest) = sendsOf [e] ++ sendsOf rest := by
  cases e <;> simp [sendsOf]

/-- Trace-level FIFO conservation for a live bridge: over any exit-free
trace, the written ids followed by the dispatch queue and the prelaunch
buffer equal the pre-existing backlog followed by the submitted ids in
submission order. -/
theorem run_fifo (es : List Event) (s : BridgeState) (hinv : LiveInv s)
    (hne : ∀ e ∈ es, e ≠ Event.exit) :
    LiveInv (run s es).1 ∧
      writesOf (run s es).2 ++ (run s es).1.requestQueue ++
          (run s es).1.pendingRequests =
        s.requestQueue ++ s.pendingRequests ++ sendsOf es := by
  induction es generalizing s with
  | nil => exact ⟨hinv, by simp [run, writesOf, sendsOf]⟩
  | cons e rest ih =>
    have h1 := step_fifo s e hinv (hne e (by simp))
    have h2 := ih (step s e).1 h1.1 (fun e' he' => hne e' (by simp [he']))
    refine ⟨by simpa [run] using h2.1, ?_⟩
    calc writesOf (run s (e :: rest)).2 ++ (run s (e :: rest)).1.requestQueue ++
            (run s (e :: rest)).1.pendingRequests
        = writesOf (step s e).2 ++
            (writesOf (run (step s e).1 rest).2 ++
              (run (step s e).1 rest).1.requestQueue ++
              (run (step s e).1 rest).1.pendingRequests) := by
          simp [run, writesOf_append, List.append_assoc]
      _ = writesOf (step s e).2 ++
            ((step s e).1.requestQueue ++ (step s e).1.pendingRequests ++
              sendsOf rest) := by rw [h2.2]
      _ = (writesOf (step s e).2 ++ (step s e).1.requestQueue ++
            (step s e).1.pendingRequests) ++ sendsOf rest := by
          simp [List.append_assoc]
      _ = (s.requestQueue ++ s.pendingRequests ++ sendsOf [e]) ++
            sendsOf rest := by rw [h1.2]
      _ = s.requestQueue ++ s.pendingRequests ++ sendsOf (e :: rest) := by
          rw [sendsOf_cons e rest]
          simp [List.append_assoc]

/-- C2 — FIFO ordering across readiness.  Over any exit-free trace from
the freshly spawned state, the ids submitted through `send`, in
submission order, are exactly the ids written to the worker's stdin
followed by the dispatch queue and then the prelaunch buffer; hence the
write sequence is a prefix of the submission sequence (no reordering,
no skipping).  Moreover once the readiness signal has been processed the
prelaunch buffer is empty: readiness moved every prelaunch entry, in
arrival order, onto the dispatch queue. -/
theorem fifo_ordering (es : List Event) (hne : Event.exit ∉ es) :
    sendsOf es =
      writesOf (run initState es).2 ++ (run initState es).1.requestQueue ++
        (run initState es).1.pendingRequests ∧
    writesOf (run initState es).2 <+: sendsOf es ∧
    ((run initState es).1.bridgeReady = true →
      (run initState es).1.pendingRequests = []) := by
  have h := run_fifo es initState ⟨rfl, fun _ => rfl⟩
    (fun e he => by rintro rfl; exact hne he)
  have heq : sendsOf es =
      writesOf (run initState es).2 ++ (run initState es).1.requestQueue ++
        (run initState es).1.pendingRequests := by
    rw [h.2]
    simp [initState]
  refine ⟨heq, ⟨(run initState es).1.requestQueue ++
    (run initState es).1.pendingRequests, ?_⟩, h.1.2⟩
  rw [heq]
  simp [List.append_assoc]

/-- Concrete trace for the FIFO theorem: two commands before readiness,
the readiness signal, a third command, one ok-response. -/
def fifoTrace : List Event :=
  [Event.send 0, Event.send 1,
   Event.msgLine { status := some "ready", ok := none, error := none },
   Event.send 2,
   Event.msgLine { status := none, ok := some true, error := none }]

/-- Witness for the FIFO theorem on `fifoTrace`. -/
theorem fifo_ordering_witness :
    Event.exit ∉ fifoTrace ∧
      sendsOf fifoTrace =
        writesOf (run initState fifoTrace).2 ++
          (run initState fifoTrace).1.requestQueue ++
          (run initState fifoTrace).1.pendingRequests :=
  ⟨by decide, (fifo_ordering fifoTrace (by decide)).1⟩

/-- C3 — Crash propagation.  If the worker exits while request `r` is in
flight and `k` requests are queued, the exit handler rejects the
in-flight request and then each of the `k` queued requests, all with the
same "Bridge exited" message; afterwards the ready flag is cleared, the
dispatch queue is empty and nothing is in flight. -/
theorem crash_propagation (s : BridgeState) (r : Nat)
    (hc : s.currentRequest = some r) :
    (step s Event.exit).2 =
      (r :: s.requestQueue).map (fun x => Out.reject x "Bridge exited") ∧
    (step s Event.exit).1.bridgeReady = false ∧
    (step s Event.exit).1.requestQueue = [] ∧
    (step s Event.exit).1.currentRequest = none := by
  obtain ⟨alive, ready, pending, queue, cur⟩ := s
  simp only at hc
  subst hc
  simp [step]

/-- Witness for crash propagation: request 5 in flight, requests 6 and 7
queued. -/
theorem crash_propagation_witness :
    (BridgeState.mk true true [] [6, 7] (some 5)).currentRequest = some 5 ∧
      (step (BridgeState.mk true true [] [6, 7] (some 5)) Event.exit).2 =
        [Out.reject 5 "Bridge exited", Out.reject 6 "Bridge exited",
         Out.reject 7 "Bridge exited"] ∧
      (step (BridgeState.mk true true [] [6, 7] (some 5)) Event.exit).1.requestQueue
        = [] :=
  ⟨rfl,
    by
      have h := crash_propagation (BridgeState.mk true true [] [6, 7] (some 5))
        5 rfl
      exact ⟨h.1, h.2.2.1⟩⟩

/-- A trace that starts the bridge, serves one request's submission, and
then loses the worker: the resulting state is the terminal
"Stopped" configuration (process gone, ready flag cleared). -/
def stoppedTrace : List Event :=
  [Event.send 0,
   Event.msgLine { status := some "ready", ok := none, error := none },
   Event.exit]

/-- The dispatcher state after `stoppedTrace`. -/
def stoppedState : BridgeState := (run initState stoppedTrace).1

/-- Evaluating `stoppedTrace`: the worker's exit leaves the bridge dead,
not ready, with everything cleared. -/
theorem stoppedState_eq :
    stoppedState = BridgeState.mk false false [] [] none := by
  simp [stoppedState, stoppedTrace, run, step, initState, processQueue_eq]

/-- C4 counterexample — a `send` issued after the worker has exited is
NOT rejected: the step emits no outputs at all (no rejection, no write);
the request is appended to the prelaunch buffer and its promise stays
pending. -/
theorem send_after_exit_not_rejected :
    stoppedState.bridgeAlive = false ∧
    stoppedState.bridgeReady = false ∧
    (step stoppedState (Event.send 1)).2 = [] ∧
    (step stoppedState (Event.send 1)).1.pendingRequests = [1] := by
  rw [stoppedState_eq]
  exact ⟨rfl, rfl, rfl, rfl⟩

/-- C4 amended — in any state with the ready flag cleared (in particular
the terminal post-exit state), `send` merely appends the request to the
prelaunch buffer and emits nothing: the returned promise is neither
rejected nor dispatched. -/
theorem send_when_not_ready_buffers (s : BridgeState) (r : Nat)
    (h : s.bridgeReady = false) :
    step s (Event.send r) =
      ({ s with pendingRequests := s.pendingRequests ++ [r] }, []) := by
  obtain ⟨alive, ready, pending, queue, cur⟩ := s
  simp only at h
  subst h
  simp [step]

/-- Witness for the amended C4 statement at the post-exit state. -/
theorem send_when_not_ready_buffers_witness :
    stoppedState.bridgeReady = false ∧
      step stoppedState (Event.send 1) =
        ({ stoppedState with
            pendingRequests := stoppedState.pendingRequests ++ [1] }, []) :=
  ⟨by rw [stoppedState_eq],
    send_when_not_ready_buffers stoppedState 1 (by rw [stoppedState_eq])⟩

/-- C6 — Parse-error locality.  When a complete non-blank line fails
JSON parsing while request `r` is in flight on a live bridge, exactly
`r` is rejected (with the parse error); the prelaunch buffer is
untouched, every other queued request stays queued (and pending), and
the dispatcher advances: the head of the dispatch queue, if any, is
written and becomes the new in-flight request. -/
theorem parse_error_locality (s : BridgeState) (err : String) (r : Nat)
    (hc : s.currentRequest = some r) (ha : s.bridgeAlive = true) :
    (step s (Event.badLine err)).2 =
      Out.reject r err ::
        (match s.requestQueue with
         | [] => []
         | h :: _ => [Out.write h]) ∧
    (step s (Event.badLine err)).1.pendingRequests = s.pendingRequests ∧
    (step s (Event.badLine err)).1.requestQueue = s.requestQueue.tail ∧
    (step s (Event.badLine err)).1.currentRequest = s.requestQueue.head? := by
  obtain ⟨alive, ready, pending, queue, cur⟩ := s
  simp only at hc ha
  subst hc
  subst ha
  cases queue with
  | nil => simp [step, processQueue_eq]
  | cons q rest => simp [step, processQueue_eq]

/-- Witness for parse-error locality: in-flight request 3, queue [4],
prelaunch buffer [9]. -/
theorem parse_error_locality_witness :
    (BridgeState.mk true true [9] [4] (some 3)).currentRequest = some 3 ∧
      (BridgeState.mk true true [9] [4] (some 3)).bridgeAlive = true ∧
      (step (BridgeState.mk true true [9] [4] (some 3))
          (Event.badLine "Unexpected token")).2 =
        [Out.reject 3 "Unexpected token", Out.write 4] ∧
      (step (BridgeState.mk true true [9] [4] (some 3))
          (Event.badLine "Unexpected token")).1.pendingRequests = [9] :=
  ⟨rfl, rfl,
    by
      have h := parse_error_locality (BridgeState.mk true true [9] [4] (some 3))
        "Unexpected token" 3 rfl rfl
      exact ⟨h.1, h.2.1⟩⟩

/-- C7 — Response settlement.  A parsed non-readiness message arriving
while request `r` is in flight on a live bridge settles exactly `r`:
rejected with the message's error text precisely when `ok === false`,
resolved with the full message otherwise (any other `ok` value,
including absent); the in-flight slot is handed to the next queued
request (if any), which is dispatched, and the prelaunch buffer is
untouched. -/
theorem response_settlement (s : BridgeState) (m : Msg) (r : Nat)
    (hc : s.currentRequest = some r) (ha : s.bridgeAlive = true)
    (hnr : m.status ≠ some "ready") :
    (step s (Event.msgLine m)).2 =
      (if m.ok = some false then Out.reject r m.errText else Out.resolve r m) ::
        (match s.requestQueue with
         | [] => []
         | h :: _ => [Out.write h]) ∧
    (step s (Event.msgLine m)).1.currentRequest = s.requestQueue.head? ∧
    (step s (Event.msgLine m)).1.requestQueue = s.requestQueue.tail ∧
    (step s (Event.msgLine m)).1.pendingRequests = s.pendingRequests := by
  obtain ⟨alive, ready, pending, queue, cur⟩ := s
  simp only at hc ha
  subst hc
  subst ha
  by_cases hok : m.ok = some false
  · cases queue with
    | nil => simp [step, processQueue_eq, hnr, hok]
    | cons q rest => simp [step, processQueue_eq, hnr, hok]
  · cases queue with
    | nil => simp [step, processQueue_eq, hnr, hok]
    | cons q rest => simp [step, processQueue_eq, hnr, hok]

/-- Witness for response settlement: an `ok: false` response with error
text "boom" rejects in-flight request 3 and dispatches request 4. -/
theorem response_settlement_witness :
    (BridgeState.mk true true [] [4] (some 3)).currentRequest = some 3 ∧
      (Msg.mk none (some false) (some "boom")).status ≠ some "ready" ∧
      (step (BridgeState.mk true true [] [4] (some 3))
          (Event.msgLine (Msg.mk none (some false) (some "boom")))).2 =
        [Out.reject 3 "boom", Out.write 4] :=
  ⟨rfl, by decide,
    by
      have h := response_settlement (BridgeState.mk true true [] [4] (some 3))
        (Msg.mk none (some false) (some "boom")) 3 rfl rfl (by decide)
      simpa [Msg.errText] using h.1⟩

/-- A chunk with no newline is buffered whole: no line is emitted. -/
theorem splitComplete_no_newline (l : List Char) (h : '\n' ∉ l) :
    splitComplete l = ([], l) := by
  induction l with
  | nil => rfl
  | cons c rest ih =>
    have hc : c ≠ '\n' := fun e => h (e ▸ List.mem_cons_self c rest)
    have hrest : '\n' ∉ rest := fun m => h (List.mem_cons_of_mem c m)
    simp [splitComplete, hc, ih hrest]

/-- The buffer kept by the splitter never contains a newline. -/
theorem splitComplete_tail_no_newline (l : List Char) :
    '\n' ∉ (splitComplete l).2 := by
  induction l with
  | nil => simp [splitComplete]
  | cons c rest ih =>
    by_cases hc : c = '\n'
    · subst hc
      simpa [splitComplete] using ih
    · rcases hpr : splitComplete rest with ⟨prl, prt⟩
      rw [hpr] at ih
      cases prl with
      | nil =>
        have hred : (splitComplete (c :: rest)).2 = c :: prt := by
          simp [splitComplete, hc, hpr]
        rw [hred]
        intro hmem
        rcases List.mem_cons.mp hmem with h1 | h1
        · exact hc h1.symm
        · exact ih h1
      | cons l ls => simpa [splitComplete, hc, hpr] using ih

/-- Splitting distributes over concatenation: the lines of `a ++ b` are
the lines of `a` followed by the lines of `a`'s leftover prepended to
`b`, and the final buffer comes from that second split. -/
theorem splitComplete_append (a b : List Char) :
    splitComplete (a ++ b) =
      ((splitComplete a).1 ++ (splitComplete ((splitComplete a).2 ++ b)).1,
        (splitComplete ((splitComplete a).2 ++ b)).2) := by
  induction a with
  | nil => simp [splitComplete]
  | cons c rest ih =>
    by_cases hc : c = '\n'
    · subst hc
      simp [splitComplete, ih]
    · rcases hpr : splitComplete rest with ⟨prl, prt⟩
      rcases hq : splitComplete (prt ++ b) with ⟨ql, qt⟩
      rw [hpr, hq] at ih
      cases prl with
      | nil =>
        cases ql with
        | nil => simp [splitComplete, hc, ih, hpr, hq]
        | cons l ls => simp [splitComplete, hc, ih, hpr, hq]
      | cons l ls => simp [splitComplete, hc, ih, hpr, hq]

/-- Re-chunking invariance of the framer: feeding the chunks one
`data` event at a time produces the same buffer and the same emitted
line sequence as feeding their concatenation at once (the handler's
buffer never holds a newline). -/
theorem feedAll_join (cs : List (List Char)) (buf : List Char)
    (h : '\n' ∉ buf) :
    feedAll buf cs = feed buf cs.join := by
  induction cs generalizing buf with
  | nil =>
    simp [feedAll, feed, splitComplete_no_newline buf h]
  | cons c cs ih =>
    have htail : '\n' ∉ (splitComplete (buf ++ c)).2 :=
      splitComplete_tail_no_newline (buf ++ c)
    have ihc := ih (splitComplete (buf ++ c)).2 htail
    have happ := splitComplete_append (buf ++ c) cs.join
    simp only [feedAll, feed, List.join_cons, ihc]
    rw [← List.append_assoc, happ]

/-- One complete line followed by an unterminated fragment splits into
exactly that line, with the fragment kept as the buffer. -/
theorem splitComplete_single (line frag : List Char) (hl : '\n' ∉ line)
    (hf : '\n' ∉ frag) :
    splitComplete (line ++ '\n' :: frag) = ([line], frag) := by
  induction line with
  | nil => simp [splitComplete, splitComplete_no_newline frag hf]
  | cons c rest ih =>
    have hc : c ≠ '\n' := fun e => hl (e ▸ List.mem_cons_self c rest)
    have hrest : '\n' ∉ rest := fun m => hl (List.mem_cons_of_mem c m)
    simp [splitComplete, hc, ih hrest]

/-- C5 — Chunk-boundary robustness.  For any splitting of one complete,
non-blank response line (plus a trailing unterminated fragment) into
arbitrary chunks — including splits inside a JSON string value — feeding
the chunks in order to the stdout handler equals feeding the whole
stream at once; exactly one complete line (hence exactly one parsed
message, the parse of the whole line) is emitted, the fragment stays
buffered, and whitespace-only lines would be skipped by the framer's
blank-line filter. -/
theorem framer_chunk_invariance {α : Type} (parse : List Char → α)
    (chunks : List (List Char)) (line frag : List Char)
    (hjoin : chunks.join = line ++ '\n' :: frag)
    (hl : '\n' ∉ line) (hf : '\n' ∉ frag) (hk : keptLine line = true) :
    feedAll [] chunks = feed [] chunks.join ∧
    feedAll [] chunks = (frag, [line]) ∧
    framedMsgs parse (feedAll [] chunks).2 = [parse line] := by
  have h1 : feedAll [] chunks = feed [] chunks.join :=
    feedAll_join chunks [] (by simp)
  have h2 : feed [] chunks.join = (frag, [line]) := by
    simp [feed, hjoin, splitComplete_single line frag hl hf]
  refine ⟨h1, h1.trans h2, ?_⟩
  rw [h1, h2]
  simp [framedMsgs, hk]

/-- Witness chunks for the framer theorem: one response split in the
middle of a JSON string value. -/
def chunkA : List Char := ("\x7b\"ok\":true,\"svg\":\"<s").toList

/-- Second witness chunk: the rest of the string value, the closing
brace and the newline. -/
def chunkB : List Char := ("vg>\"\x7d\n").toList

/-- The complete line the two chunks carry. -/
def wholeLine : List Char := ("\x7b\"ok\":true,\"svg\":\"<svg>\"\x7d").toList

/-- Witness for chunk-boundary robustness on a line split inside a JSON
string value. -/
theorem framer_chunk_invariance_witness :
    [chunkA, chunkB].join = wholeLine ++ '\n' :: [] ∧
      feedAll [] [chunkA, chunkB] = ([], [wholeLine]) ∧
      framedMsgs (fun l => String.mk l) (feedAll [] [chunkA, chunkB]).2 =
        [String.mk wholeLine] :=
  ⟨by decide,
    (framer_chunk_invariance (fun l => String.mk l) [chunkA, chunkB] wholeLine []
      (by decide) (by decide) (by decide) (by decide)).2.1,
    (framer_chunk_invariance (fun l => String.mk l) [chunkA, chunkB] wholeLine []
      (by decide) (by decide) (by decide) (by decide)).2.2⟩

/-- C8 — Provisioning idempotence.  When the probe ran and its output
carries no `miss:<importName>` tag for any required package, the
provisioner reports success without invoking pip at all: the attempt
list is empty. -/
theorem provisioning_idempotent (env : PipEnv) (out : String)
    (hout : env.checkOutput = some out)
    (hnone : ∀ p ∈ REQUIRED_PACKAGES, strContains out ("miss:" ++ p.1) = false) :
    installAttempts env = ([], true) := by
  have hmiss : missingFrom out = [] := by
    refine List.filter_eq_nil.mpr ?_
    intro p hp
    simp [hnone p hp]
  simp [installAttempts, hout, hmiss]

/-- Probe output reporting every required package present. -/
def allOkOutput : String :=
  "ok:cv2\nok:numpy\nok:skimage\nok:PIL\nok:cairosvg\nok:shapely"

/-- Environment whose probe reports everything present (the pip results
are irrelevant: pip is never invoked). -/
def pipEnvAllOk : PipEnv :=
  { checkOutput := some allOkOutput,
    plainResult := { success := false, error := "" },
    breakResult := { success := false, error := "" },
    userResult := { success := false, error := "" } }

/-- Witness for provisioning idempotence on the all-present probe
output. -/
theorem provisioning_idempotent_witness :
    (∀ p ∈ REQUIRED_PACKAGES,
      strContains allOkOutput ("miss:" ++ p.1) = false) ∧
      installAttempts pipEnvAllOk = ([], true) :=
  ⟨by decide, provisioning_idempotent pipEnvAllOk allOkOutput rfl (by decide)⟩

/-- C9 — Fallback escalation.  When packages are missing and the plain
install fails with a diagnostic containing the "externally-managed"
marker, the provisioner retries exactly once with
`--break-system-packages`; the `--user` retry runs only if that
override retry also fails.  At most three attempts occur, in the order
plain, override, user-scoped. -/
theorem fallback_escalation (env : PipEnv) (out : String)
    (hout : env.checkOutput = some out)
    (hmiss : (missingFrom out).isEmpty = false)
    (hfail : env.plainResult.success = false)
    (hmark : strContains env.plainResult.error "externally-managed" = true) :
    installAttempts env =
      (if env.breakResult.success then
        [Attempt.plain, Attempt.breakSystemPackages]
      else [Attempt.plain, Attempt.breakSystemPackages, Attempt.user],
       if env.breakResult.success then true else env.userResult.success) := by
  cases hb : env.breakResult.success <;>
    simp [installAttempts, hout, hmiss, hfail, hmark, hb]

/-- Environment with a missing package whose plain install fails under
PEP 668, whose override retry also fails, and whose user-scoped retry
succeeds. -/
def pipEnvManaged : PipEnv :=
  { checkOutput := some "miss:cv2",
    plainResult :=
      { success := false,
        error := "error: externally-managed-environment" },
    breakResult := { success := false, error := "still failing" },
    userResult := { success := true, error := "" } }

/-- Witness for fallback escalation: all three attempts, in order. -/
theorem fallback_escalation_witness :
    (missingFrom "miss:cv2").isEmpty = false ∧
      strContains pipEnvManaged.plainResult.error "externally-managed" = true ∧
      installAttempts pipEnvManaged =
        ([Attempt.plain, Attempt.breakSystemPackages, Attempt.user], true) :=
  ⟨by decide, by decide,
    by
      have h := fallback_escalation pipEnvManaged "miss:cv2" rfl (by decide)
        rfl (by decide)
      simpa using h⟩

/-- Host on which `python3 --version` reports Python 2.3.0 (and pip
probes succeed): the substring test `ver.includes("3.")` passes. -/
def pyEnv23 : PyEnv :=
  { versionOut := fun c => if c = "python3" then some "Python 2.3.0" else none,
    pipOk := fun _ => true }

/-- C10 counterexample — pass 1 accepts a runtime whose reported major
version is not 3: on a host whose `python3` reports "Python 2.3.0", the
code's `ver.includes("3.")` check passes and the candidate is returned,
although the reported major version is 2. -/
theorem locator_accepts_non_python3 :
    pass1 pyEnv23 pythonCandidatesLinux = some "python3" ∧
      pyEnv23.versionOut "python3" = some "Python 2.3.0" ∧
      reportsMajor3 "Python 2.3.0" = false ∧
      strContains "Python 2.3.0" "3." = true := by
  refine ⟨by decide, rfl, by decide, by decide⟩

/-- C10 amended — pass 1 of `findPythonAndPip` returns exactly the first
candidate of the ordered list that passes both checks — a version probe
whose output contains the substring "3." and a successful
`-m pip --version` probe — short-circuiting past it; it returns a
candidate only if both checks pass. -/
theorem locator_pass1_first_match (env : PyEnv) (cands : List String) :
    pass1 env cands = cands.find? (candidateOk env) := by
  induction cands with
  | nil => rfl
  | cons cmd rest ih =>
    cases hv : env.versionOut cmd with
    | none => simp [pass1, candidateOk, hv, ih]
    | some ver =>
      by_cases h3 : strContains ver "3." = true
      · by_cases hp : env.pipOk cmd = true
        · simp [pass1, candidateOk, hv, h3, hp]
        · simp only [Bool.not_eq_true] at hp
          simp [pass1, candidateOk, hv, h3, hp, ih]
      · simp only [Bool.not_eq_true] at h3
        simp [pass1, candidateOk, hv, h3, ih]

end Halftone
